import Mathlib

/-!
Verification of the manifest data model of the `sink` dependency manager
(Rust sources: `src/lib.rs`, `src/github/mod.rs`, `src/cli/mod.rs`, `src/main.rs`).

The development shallowly embeds the Rust code:

* Rust `String` keys and values are Lean `String`; the pathspec parser, which
  works character by character through a regex, is embedded over `List Char`.
* `HashMap` is embedded as an association list (`lookupA` / `insertA`); the map
  operations used by the code are key lookup and insert-or-replace, for which
  an association list is an exact model.
* `toml_edit::Document` (the format-preserving document tree) is embedded as
  `TomlItem`: an ordered tree of tables whose leaves are opaque TOML values.
  `toml_edit`'s table indexing preserves entry order and appends new keys at
  the end, which `insertA` mirrors.  Indexing into a non-table value panics in
  `toml_edit`; the embedding returns `Option.none` for that (inline tables and
  arrays-of-tables are not distinguished from other leaf values here).
* Fallible Rust functions returning `Result` are embedded with `Except` or
  `Option`; a Rust panic (`unwrap` on `None`, `toml_edit` index panic) is a
  distinguished outcome, not an error value.
-/

/- ================= TOML values and the formatted document tree ============= -/

/-- Embedding of a raw TOML value (`toml::Value`), as far as the manifest code
inspects it: strings, integers, booleans, arrays and tables.  Floats and
datetimes never occur in the shapes the code matches on and are omitted. -/
inductive TomlValue : Type where
  | str (s : String)
  | int (n : Int)
  | bool (b : Bool)
  | array (vs : List TomlValue)
  | table (es : List (String × TomlValue))

/-- Embedding of `toml::Table`, the payload of the `Invalid` container shape. -/
abbrev TomlTable := List (String × TomlValue)

/-- Embedding of `toml_edit::Item`, a node of the format-preserving document
tree.  `value` is any leaf (scalar) item; `table` keeps its entries in document
order; `none` is `Item::None`, the placeholder `toml_edit` inserts for missing
keys and turns into an implicit table when indexed further. -/
inductive TomlItem : Type where
  | none
  | value (v : TomlValue)
  | table (es : List (String × TomlItem))

/-- Lookup in an association list (model of `HashMap::get` and of
`toml_edit` table key access). -/
def lookupA {α : Type} : List (String × α) → String → Option α
  | [], _ => Option.none
  | (k, v) :: rest, key => if k = key then Option.some v else lookupA rest key

/-- Insert-or-replace in an association list (model of `HashMap::insert` and of
`toml_edit` table assignment): an existing key is overwritten in place, a new
key is appended at the end, so entry order is preserved. -/
def insertA {α : Type} : List (String × α) → String → α → List (String × α)
  | [], key, v => [(key, v)]
  | (k, w) :: rest, key, v =>
    if k = key then (k, v) :: rest else (k, w) :: insertA rest key v

/-- Path read in the formatted document tree: follows table entries; any other
node (leaf value, `Item::None`) has no children. -/
def getPath : TomlItem → List String → Option TomlItem
  | t, [] => Option.some t
  | TomlItem.table es, k :: rest =>
    match lookupA es k with
    | Option.some u => getPath u rest
    | Option.none => Option.none
  | _, _ :: _ => Option.none

/-- Path write in the formatted document tree, the embedding of the chained
`toml_edit` index-then-assign `doc[k1][k2]... = value`.  A missing key or an
`Item::None` becomes an implicit table (as `toml_edit`'s `IndexMut` does);
indexing into a leaf value panics in `toml_edit`, embedded as `Option.none`. -/
def setPath : TomlItem → List String → TomlItem → Option TomlItem
  | _, [], v => Option.some v
  | TomlItem.table es, k :: rest, v =>
    match setPath ((lookupA es k).getD TomlItem.none) rest v with
    | Option.some u => Option.some (TomlItem.table (insertA es k u))
    | Option.none => Option.none
  | TomlItem.none, k :: rest, v =>
    match setPath TomlItem.none rest v with
    | Option.some u => Option.some (TomlItem.table [(k, u)])
    | Option.none => Option.none
  | TomlItem.value _, _ :: _, _ => Option.none

/-- Two key paths diverge when at some depth reached by both they name
different keys; neither is then a prefix of the other. -/
def divergesFrom : List String → List String → Prop
  | a :: p, b :: q => a ≠ b ∨ (a = b ∧ divergesFrom p q)
  | _, _ => False

theorem lookupA_insertA_self {α : Type} (es : List (String × α)) (k : String) (v : α) :
    lookupA (insertA es k v) k = Option.some v := by
  induction es with
  | nil => simp [insertA, lookupA]
  | cons hd rest ih =>
    obtain ⟨k', w⟩ := hd
    by_cases h : k' = k
    · simp [insertA, lookupA, h]
    · simp [insertA, lookupA, h, ih]

theorem lookupA_insertA_ne {α : Type} (es : List (String × α)) (k k' : String) (v : α)
    (h : k' ≠ k) : lookupA (insertA es k v) k' = lookupA es k' := by
  have hk : k ≠ k' := fun hh => h hh.symm
  induction es with
  | nil => simp [insertA, lookupA, hk]
  | cons hd rest ih =>
    obtain ⟨k0, w⟩ := hd
    by_cases h0 : k0 = k
    · subst h0
      simp [insertA, lookupA, hk]
    · simp only [insertA, if_neg h0]
      by_cases h1 : k0 = k'
      · simp [lookupA, h1]
      · simp [lookupA, h1, ih]

theorem keys_insertA {α : Type} (es : List (String × α)) (k : String) (v : α) :
    (insertA es k v).map Prod.fst =
      if (lookupA es k).isSome then es.map Prod.fst else es.map Prod.fst ++ [k] := by
  induction es with
  | nil => simp [insertA, lookupA]
  | cons hd rest ih =>
    obtain ⟨k0, w⟩ := hd
    by_cases h0 : k0 = k
    · simp [insertA, lookupA, h0]
    · simp [insertA, lookupA, h0, ih]
      split <;> simp

theorem getPath_setPath_self (path : List String) :
    ∀ (t t' v : TomlItem), setPath t path v = Option.some t' →
      getPath t' path = Option.some v := by
  induction path with
  | nil =>
    intro t t' v h
    simp [setPath] at h
    simp [getPath, h]
  | cons k rest ih =>
    intro t t' v h
    match t with
    | TomlItem.table es =>
      simp only [setPath] at h
      cases hs : setPath ((lookupA es k).getD TomlItem.none) rest v with
      | none => rw [hs] at h; exact absurd h (by simp)
      | some u =>
        rw [hs] at h
        simp only [Option.some.injEq] at h
        subst h
        simp only [getPath, lookupA_insertA_self]
        exact ih _ _ _ hs
    | TomlItem.none =>
      simp only [setPath] at h
      cases hs : setPath TomlItem.none rest v with
      | none => rw [hs] at h; exact absurd h (by simp)
      | some u =>
        rw [hs] at h
        simp only [Option.some.injEq] at h
        subst h
        simp only [getPath, lookupA]
        exact ih _ _ _ hs
    | TomlItem.value w => simp [setPath] at h

theorem getPath_table_some {es : List (String × TomlItem)} {k : String}
    {u : TomlItem} (rest : List String) (h : lookupA es k = Option.some u) :
    getPath (TomlItem.table es) (k :: rest) = getPath u rest := by
  simp [getPath, h]

theorem getPath_table_none {es : List (String × TomlItem)} {k : String}
    (rest : List String) (h : lookupA es k = Option.none) :
    getPath (TomlItem.table es) (k :: rest) = Option.none := by
  simp [getPath, h]

theorem getPath_none_cons (k : String) (rest : List String) :
    getPath TomlItem.none (k :: rest) = Option.none := rfl

theorem divergesFrom_cons {a b : String} {p q : List String}
    (h : divergesFrom (a :: p) (b :: q)) : a ≠ b ∨ (a = b ∧ divergesFrom p q) := h

theorem divergesFrom_ne_nil {p : List String} (h : divergesFrom p []) : False := by
  cases p <;> simp [divergesFrom] at h

theorem getPath_setPath_diverge (path : List String) :
    ∀ (q : List String) (t t' v : TomlItem), setPath t path v = Option.some t' →
      divergesFrom path q → getPath t' q = getPath t q := by
  induction path with
  | nil => intro q t t' v _ hd; cases q <;> simp [divergesFrom] at hd
  | cons a p ih =>
    intro q t t' v h hd
    cases q with
    | nil => exact absurd hd divergesFrom_ne_nil
    | cons b q' =>
      match t with
      | TomlItem.table es =>
        simp only [setPath] at h
        cases hs : setPath ((lookupA es a).getD TomlItem.none) p v with
        | none => rw [hs] at h; exact absurd h (by simp)
        | some u =>
          rw [hs] at h
          simp only [Option.some.injEq] at h
          subst h
          rcases divergesFrom_cons hd with hne | ⟨heq, hd'⟩
          · have hl := lookupA_insertA_ne es a b u (fun hh => hne hh.symm)
            cases hb : lookupA es b with
            | some s =>
              rw [hb] at hl
              rw [getPath_table_some q' hl, getPath_table_some q' hb]
            | none =>
              rw [hb] at hl
              rw [getPath_table_none q' hl, getPath_table_none q' hb]
          · subst heq
            rw [getPath_table_some q' (lookupA_insertA_self es a u)]
            cases hl : lookupA es a with
            | some s =>
              rw [hl] at hs
              simp only [Option.getD] at hs
              rw [getPath_table_some q' hl]
              exact ih q' s u v hs hd'
            | none =>
              rw [hl] at hs
              simp only [Option.getD] at hs
              have hu : getPath u q' = getPath TomlItem.none q' := ih q' _ u v hs hd'
              rw [hu, getPath_table_none q' hl]
              cases q' with
              | nil => exact absurd hd' divergesFrom_ne_nil
              | cons c q'' => rfl
      | TomlItem.none =>
        simp only [setPath] at h
        cases hs : setPath TomlItem.none p v with
        | none => rw [hs] at h; exact absurd h (by simp)
        | some u =>
          rw [hs] at h
          simp only [Option.some.injEq] at h
          subst h
          rw [getPath_none_cons]
          rcases divergesFrom_cons hd with hne | ⟨heq, hd'⟩
          · have hl : lookupA [(a, u)] b = Option.none := by simp [lookupA, hne]
            rw [getPath_table_none q' hl]
          · subst heq
            have hl : lookupA [(a, u)] a = Option.some u := by simp [lookupA]
            rw [getPath_table_some q' hl]
            have hu : getPath u q' = getPath TomlItem.none q' := ih q' _ u v hs hd'
            rw [hu]
            cases q' with
            | nil => exact absurd hd' divergesFrom_ne_nil
            | cons c q'' => rfl
      | TomlItem.value w => simp [setPath] at h

theorem setPath_root_table (es : List (String × TomlItem)) (k : String)
    (rest : List String) (v t' : TomlItem)
    (h : setPath (TomlItem.table es) (k :: rest) v = Option.some t') :
    ∃ u, t' = TomlItem.table (insertA es k u) := by
  simp only [setPath] at h
  cases hs : setPath ((lookupA es k).getD TomlItem.none) rest v with
  | none => rw [hs] at h; exact absurd h (by simp)
  | some u =>
    rw [hs] at h
    simp only [Option.some.injEq] at h
    exact ⟨u, h.symm⟩

/- ================= GitHub pathspec parsing (src/github/mod.rs) ============= -/

/-- Embedding of `GitHubPathspec` (`src/github/mod.rs`): the `owner`,
`repository` and `pattern` captures of the dependency path specification.
Fields are character lists because parsing is character-level. -/
structure GitHubPathspec where
  owner : List Char
  repository : List Char
  pattern : List Char
deriving DecidableEq

/-- Derived `Default` of `GitHubPathspec` (used by `#[serde(skip)]`):
all fields empty. -/
def GitHubPathspec.empty : GitHubPathspec := ⟨[], [], []⟩

/-- Embedding of `From<GitHubPathspec> for String`:
`format!("{}/{}:{}", owner, repository, pattern)`. -/
def GitHubPathspec.into_string (value : GitHubPathspec) : List Char :=
  value.owner ++ '/' :: value.repository ++ ':' :: value.pattern

/-- Character test for the regex metacharacter `.`, which in the Rust `regex`
crate matches any character except a newline. -/
def noNL (s : List Char) : Bool := s.all (fun c => c != '\n')

/-- All decompositions `s = a ++ b`, with the length of `a` ascending. -/
def splitsAsc : List Char → List (List Char × List Char)
  | [] => [([], [])]
  | c :: cs => ([], c :: cs) :: (splitsAsc cs).map (fun pr => (c :: pr.1, pr.2))

/-- All decompositions `s = a ++ b`, with the length of `a` descending: the
order in which a greedy (longest-first) quantifier tries its candidates. -/
def splitsDesc (s : List Char) : List (List Char × List Char) := (splitsAsc s).reverse

/-- Greedy match of the regex tail `(?<repo>.+):(?<pattern>.+)$` against the
text after the owner's `/`: the repo capture takes the longest candidate whose
remainder still starts with `:` and leaves a nonempty newline-free pattern. -/
def matchRepoPattern (rest : List Char) : Option (List Char × List Char) :=
  (splitsDesc rest).findSome? (fun pr =>
    match pr.2 with
    | c :: pat =>
      if c == ':' && !pr.1.isEmpty && !pat.isEmpty && noNL pr.1 && noNL pat then
        Option.some (pr.1, pat)
      else Option.none
    | [] => Option.none)

/-- Embedding of `TryFrom<String> for GitHubPathspec`: matching the input
against `^(?<owner>.+)/(?<repo>.+):(?<pattern>.+)$` with the regex crate's
greedy leftmost-first semantics (`.` excludes newlines), `Option.none` being
the `Err(anyhow!("Invalid dependency path specification ..."))` case. -/
def GitHubPathspec.try_from (value : List Char) : Option GitHubPathspec :=
  (splitsDesc value).findSome? (fun pr =>
    match pr.2 with
    | c :: rest =>
      if c == '/' && !pr.1.isEmpty && noNL pr.1 then
        match matchRepoPattern rest with
        | Option.some rp => Option.some ⟨pr.1, rp.1, rp.2⟩
        | Option.none => Option.none
      else Option.none
    | [] => Option.none)

theorem findSome?_eq_none_of_forall {α β : Type} (l : List α) (f : α → Option β)
    (h : ∀ x ∈ l, f x = Option.none) : l.findSome? f = Option.none := by
  induction l with
  | nil => rfl
  | cons a rest ih =>
    have ha := h a (List.mem_cons_self a rest)
    simp only [List.findSome?, ha]
    exact ih (fun x hx => h x (List.mem_cons_of_mem a hx))

theorem exists_of_findSome?_some {α β : Type} {l : List α} {f : α → Option β} {y : β}
    (h : l.findSome? f = Option.some y) : ∃ x ∈ l, f x = Option.some y := by
  induction l with
  | nil => simp [List.findSome?] at h
  | cons a rest ih =>
    simp only [List.findSome?] at h
    cases ha : f a with
    | some b =>
      rw [ha] at h
      simp only [Option.some.injEq] at h
      exact ⟨a, List.mem_cons_self a rest, by rw [ha, h]⟩
    | none =>
      rw [ha] at h
      obtain ⟨x, hx, hfx⟩ := ih h
      exact ⟨x, List.mem_cons_of_mem a hx, hfx⟩

theorem findSome?_isSome_of_mem {α β : Type} {l : List α} {f : α → Option β} {x : α} {y : β}
    (hx : x ∈ l) (hf : f x = Option.some y) : (l.findSome? f).isSome = true := by
  induction l with
  | nil => cases hx
  | cons a rest ih =>
    simp only [List.findSome?]
    cases ha : f a with
    | some b => simp
    | none =>
      rcases List.mem_cons.mp hx with hax | hmem
      · subst hax; rw [ha] at hf; cases hf
      · exact ih hmem

theorem findSome?_eq_of_unique {α β : Type} {l : List α} {f : α → Option β} {x : α}
    (hx : x ∈ l) (h : ∀ y ∈ l, y ≠ x → f y = Option.none) : l.findSome? f = f x := by
  induction l with
  | nil => cases hx
  | cons a rest ih =>
    simp only [List.findSome?]
    by_cases hax : a = x
    · subst hax
      cases ha : f a with
      | some b => rfl
      | none =>
        rw [findSome?_eq_none_of_forall rest f]
        intro z hz
        by_cases hzx : z = a
        · rw [hzx, ha]
        · exact h z (List.mem_cons_of_mem a hz) hzx
    · rw [h a (List.mem_cons_self a rest) hax]
      rcases List.mem_cons.mp hx with hax' | hmem
      · exact absurd hax'.symm hax
      · exact ih hmem (fun y hy => h y (List.mem_cons_of_mem a hy))

theorem append_of_mem_splitsAsc :
    ∀ (s : List Char) (pr : List Char × List Char), pr ∈ splitsAsc s → pr.1 ++ pr.2 = s := by
  intro s
  induction s with
  | nil => intro pr hpr; simp [splitsAsc] at hpr; simp [hpr]
  | cons c cs ih =>
    intro pr hpr
    simp only [splitsAsc, List.mem_cons, List.mem_map] at hpr
    rcases hpr with h0 | ⟨q, hq, hpq⟩
    · simp [h0]
    · subst hpq
      simp only [List.cons_append, List.cons.injEq]
      exact ⟨trivial, ih q hq⟩

theorem mem_splitsAsc_of_append :
    ∀ (a b : List Char), (a, b) ∈ splitsAsc (a ++ b) := by
  intro a
  induction a with
  | nil =>
    intro b
    cases b with
    | nil => simp [splitsAsc]
    | cons c cs => exact List.mem_cons_self _ _
  | cons c cs ih =>
    intro b
    simp only [List.cons_append, splitsAsc, List.mem_cons, List.mem_map]
    right
    exact ⟨(cs, b), ih b, rfl⟩

theorem append_of_mem_splitsDesc {s : List Char} {pr : List Char × List Char}
    (hpr : pr ∈ splitsDesc s) : pr.1 ++ pr.2 = s :=
  append_of_mem_splitsAsc s pr (List.mem_reverse.mp hpr)

theorem mem_splitsDesc_of_append (a b : List Char) : (a, b) ∈ splitsDesc (a ++ b) :=
  List.mem_reverse.mpr (mem_splitsAsc_of_append a b)

theorem split_unique {c : Char} :
    ∀ (a a' b b' : List Char), a ++ c :: b = a' ++ c :: b' → c ∉ a → c ∉ b →
      a = a' ∧ b = b' := by
  intro a
  induction a with
  | nil =>
    intro a' b b' heq hca hcb
    cases a' with
    | nil => simpa using heq
    | cons x t =>
      simp only [List.nil_append, List.cons_append, List.cons.injEq] at heq
      obtain ⟨hx, hb⟩ := heq
      subst hx
      exact absurd (hb ▸ List.mem_append_right t (List.mem_cons_self c b')) hcb
  | cons x t ih =>
    intro a' b b' heq hca hcb
    cases a' with
    | nil =>
      simp only [List.cons_append, List.nil_append, List.cons.injEq] at heq
      obtain ⟨hx, _⟩ := heq
      exact absurd (hx ▸ List.mem_cons_self x t) hca
    | cons y t' =>
      simp only [List.cons_append, List.cons.injEq] at heq
      obtain ⟨hxy, heq'⟩ := heq
      have hca' : c ∉ t := fun hm => hca (List.mem_cons_of_mem x hm)
      obtain ⟨h1, h2⟩ := ih t' b b' heq' hca' hcb
      exact ⟨by rw [hxy, h1], h2⟩

/- ================= GitHub version descriptor (src/github/mod.rs) =========== -/

/-- Embedding of `GitHubVersion`: `Latest`, `Prerelease`, or an explicit
release `Tag`. -/
inductive GitHubVersion : Type where
  | Latest
  | Prerelease
  | Tag (tag : String)
deriving DecidableEq

/-- Embedding of `From<&str> for GitHubVersion`: the two reserved literals map
to their variants, every other string becomes `Tag` (total, never fails;
`parse_cli` wraps this same conversion in `Ok`). -/
def GitHubVersion.from_str (s : String) : GitHubVersion :=
  if s = "latest" then GitHubVersion.Latest
  else if s = "prerelease" then GitHubVersion.Prerelease
  else GitHubVersion.Tag s

/-- Embedding of `Display for GitHubVersion`. -/
def GitHubVersion.to_string : GitHubVersion → String
  | GitHubVersion.Latest => "latest"
  | GitHubVersion.Prerelease => "prerelease"
  | GitHubVersion.Tag tag => tag

/-- Embedding of `GitHubDependency` (`src/github/mod.rs`): pathspec (skipped
during deserialization, so defaulted), destination path (`PathBuf` kept as its
string), version, and the gitignore flag (serde default `true`). -/
structure GitHubDependency where
  pathspec : GitHubPathspec
  destination : String
  version : GitHubVersion
  gitignore : Bool

/- ================= Manifest data model (src/lib.rs, mod toml) ============== -/

/-- Embedding of `Dependency<T>` (`#[serde(untagged)]`): a bare version string
or a full provider record.  There is no per-entry invalid variant in the
source; an entry that fits neither shape fails the whole container instead. -/
inductive Dependency (T : Type) : Type where
  | Version (s : String)
  | Full (t : T)

/-- Embedding of `DependencyContainer<T>`: optional `includes` plus the flat
`dependencies` map (`HashMap` as an association list). -/
structure DependencyContainer (T : Type) : Type where
  includes : Option String
  dependencies : List (String × Dependency T)

/-- Embedding of `DependencyType<T>` (`#[serde(untagged)]`): a flat container,
a map of named groups, or the `Invalid` catch-all holding the raw table. -/
inductive DependencyType (T : Type) : Type where
  | Singular (c : DependencyContainer T)
  | Grouped (m : List (String × DependencyContainer T))
  | Invalid (t : TomlTable)

/-- Embedding of `PluginOptions<T>`: provider name, provider-level default
group, and the flattened optional dependencies container. -/
structure PluginOptions (T : Type) : Type where
  provider : Option String
  default_group : Option String
  dependencies : Option (DependencyType T)

/-- Embedding of `PythonPluginOptions` (`src/lib.rs`). -/
structure PythonPluginOptions where
  sink_options : PluginOptions TomlTable
  version : String
  venv : Option String

/-- Embedding of `RustPluginOptions` (`src/lib.rs`). -/
structure RustPluginOptions where
  sink_options : PluginOptions TomlTable

/-- Modelled from the spec: `github::toml::GitHubPluginOptions` lives in a
`toml` submodule of `src/github/` that is not among the provided sources.  Per
the spec the GitHub provider table carries the generic plugin options plus
optional `default-owner` / `default-repository`; `src/lib.rs` itself only ever
reads its `sink_options` field (`default_group` and `dependencies`). -/
structure GitHubPluginOptions where
  sink_options : PluginOptions GitHubDependency
  default_owner : Option String
  default_repository : Option String

/-- Embedding of `SinkTOML` (`src/lib.rs`): global options, one optional
options block per provider, the path the manifest was read from, and the
formatted document mirror used for in-place manipulation. -/
structure SinkTOML where
  includes : List String
  default_group : Option String
  python : Option PythonPluginOptions
  rust : Option RustPluginOptions
  github : Option GitHubPluginOptions
  path : String
  formatted : TomlItem

/-- The distinct failure cases of `SinkTOML::add_dependency`, one per
`return Err(anyhow!(...))` in the source:
`DuplicateKey k` is "Dependency 'k' already exists!";
`GroupedIntoSingular` is "Adding grouped dependencies to singular dependencies
are not supported yet!";
`MissingGroup` is "Cannot add ungrouped dependency to grouped dependencies if
default-group is not set!";
`CorruptContainer p` is "Current p configuration contains invalid entries.
Please fix them before adding new ones!". -/
inductive AddError : Type where
  | DuplicateKey (dependency_key : String)
  | GroupedIntoSingular
  | MissingGroup
  | CorruptContainer (plugin_name : String)
deriving DecidableEq

/-- Outcome of one `add_dependency` call on a `&mut self` receiver: a panic
(`unwrap` on a missing GitHub section, or a `toml_edit` index panic), a
failure carrying the untouched state, or success carrying the new state. -/
inductive AddOutcome : Type where
  | panicked
  | failed (e : AddError) (st : SinkTOML)
  | ok (st : SinkTOML)

/-- Embedding of `SinkTOML::_extend_formatted`: writes `value` under
`formatted[plugin_name][group]["dependencies"][dependency_key]` (grouped) or
`formatted[plugin_name]["dependencies"][dependency_key]` (ungrouped);
`Option.none` is the `toml_edit` index panic on a non-table node. -/
def SinkTOML.extend_formatted (st : SinkTOML) (plugin_name : String)
    (group : Option String) (dependency_key : String) (value : TomlItem) :
    Option SinkTOML :=
  match group with
  | Option.some g =>
    (setPath st.formatted [plugin_name, g, "dependencies", dependency_key] value).map
      (fun f => { st with formatted := f })
  | Option.none =>
    (setPath st.formatted [plugin_name, "dependencies", dependency_key] value).map
      (fun f => { st with formatted := f })

/-- Embedding of `SinkTOML::add_dependency` (`src/lib.rs` lines 144-260).
The `step` value gathers the source's match: each `Except.error` is one of the
early `return Err(...)`, each `Except.ok` carries the new value of
`sink_options.dependencies` together with the `formatted_group` variable; the
tail then performs the typed-model write (always into `self.github`) followed
by `_extend_formatted` (into the table named `plugin_name`). -/
def SinkTOML.add_dependency (st : SinkTOML) (plugin_name : String)
    (group : Option String) (dependency : Dependency GitHubDependency)
    (dependency_key : String) (formatted_value : TomlItem) : AddOutcome :=
  match st.github with
  | Option.none => AddOutcome.panicked
  | Option.some gh =>
    let sink_options := gh.sink_options
    -- The group is determined in this order:
    -- 1. given via argument, 2. default group of GitHub, 3. global default group
    let dependency_group : Option String :=
      group.or (sink_options.default_group.or st.default_group)
    let new_container : DependencyContainer GitHubDependency :=
      { includes := Option.none, dependencies := [(dependency_key, dependency)] }
    let step : Except AddError (DependencyType GitHubDependency × Option String) :=
      match sink_options.dependencies with
      -- dependencies already exist
      | Option.some dt =>
        match dt with
        -- existing dependencies are grouped
        | DependencyType.Grouped grouped_containers =>
          match dependency_group with
          -- group was given via the CLI or default-group is set
          | Option.some final_group =>
            match lookupA grouped_containers final_group with
            -- given group already exists
            | Option.some existing_dependencies =>
              if (lookupA existing_dependencies.dependencies dependency_key).isSome then
                Except.error (AddError.DuplicateKey dependency_key)
              else
                Except.ok
                  (DependencyType.Grouped (insertA grouped_containers final_group
                    { existing_dependencies with
                      dependencies :=
                        insertA existing_dependencies.dependencies dependency_key dependency }),
                   Option.some final_group)
            -- given group does not exist and has to be created anew
            | Option.none =>
              Except.ok
                (DependencyType.Grouped (insertA grouped_containers final_group new_container),
                 Option.some final_group)
          -- no group given via CLI and no default-group exists in any scope
          | Option.none => Except.error AddError.MissingGroup
        -- dependencies are not grouped
        | DependencyType.Singular container =>
          if (lookupA container.dependencies dependency_key).isSome then
            -- dependency already exists
            Except.error (AddError.DuplicateKey dependency_key)
          else
            match dependency_group with
            -- adding a grouped dependency to singular does not work
            | Option.some _ => Except.error AddError.GroupedIntoSingular
            -- add as singular dependency
            | Option.none =>
              Except.ok
                (DependencyType.Singular
                  { container with
                    dependencies := insertA container.dependencies dependency_key dependency },
                 Option.none)
        -- invalid dependency structure in TOML
        | DependencyType.Invalid _ =>
          Except.error (AddError.CorruptContainer plugin_name)
      -- this is the first dependency
      | Option.none =>
        match dependency_group with
        -- create grouped dependency container
        | Option.some g =>
          Except.ok (DependencyType.Grouped [(g, new_container)], Option.some g)
        -- create singular dependency container
        | Option.none =>
          Except.ok (DependencyType.Singular new_container, Option.none)
    match step with
    | Except.error e => AddOutcome.failed e st
    | Except.ok (new_dependencies, formatted_group) =>
      let st1 : SinkTOML :=
        { st with
          github := Option.some
            { gh with
              sink_options :=
                { sink_options with dependencies := Option.some new_dependencies } } }
      match st1.extend_formatted plugin_name formatted_group dependency_key formatted_value with
      | Option.some st2 => AddOutcome.ok st2
      | Option.none => AddOutcome.panicked

/-- The key path `_extend_formatted` writes in the formatted document for a
given plugin name, formatted group and dependency key. -/
def formattedPath (plugin_name : String) (group : Option String)
    (dependency_key : String) : List String :=
  match group with
  | Option.some g => [plugin_name, g, "dependencies", dependency_key]
  | Option.none => [plugin_name, "dependencies", dependency_key]

/-- Reads the dependency entry stored under an optional group and a key in a
dependencies container. -/
def DependencyType.entryAt {T : Type} (dt : DependencyType T) (group : Option String)
    (dependency_key : String) : Option (Dependency T) :=
  match dt, group with
  | DependencyType.Singular c, Option.none => lookupA c.dependencies dependency_key
  | DependencyType.Grouped m, Option.some g =>
    match lookupA m g with
    | Option.some c => lookupA c.dependencies dependency_key
    | Option.none => Option.none
  | _, _ => Option.none

/-- Reads the dependency entry stored in the typed model's GitHub options. -/
def SinkTOML.typedEntryAt (st : SinkTOML) (group : Option String)
    (dependency_key : String) : Option (Dependency GitHubDependency) :=
  match st.github with
  | Option.some gh =>
    match gh.sink_options.dependencies with
    | Option.some dt => dt.entryAt group dependency_key
    | Option.none => Option.none
  | Option.none => Option.none

/- ================= Validation and loading (src/lib.rs) ===================== -/

/-- Embedding of the validation failure of `SinkTOML::_validate`: the single
`anyhow!("Invalid GitHub dependencies! {invalid:#?}")` error, carrying the raw
invalid table and naming no provider/key pair. -/
inductive ValidationErr : Type where
  | InvalidGitHubDependencies (invalid : TomlTable)

/-- Embedding of `SinkTOML::_validate` (`src/lib.rs` lines 74-83): only the
GitHub options are inspected, and only for the whole-container `Invalid`
shape; the Python and Rust containers are never looked at. -/
def SinkTOML.validate (st : SinkTOML) : Except ValidationErr Unit :=
  match st.github with
  | Option.some github_options =>
    match github_options.sink_options.dependencies with
    | Option.some (DependencyType.Invalid invalid) =>
      Except.error (ValidationErr.InvalidGitHubDependencies invalid)
    | _ => Except.ok ()
  | Option.none => Except.ok ()

/-- Embedding of the failures of `SinkTOML::_from_file`: an I/O or structural
parse failure of the raw text, or a wrapped validation failure. -/
inductive LoadErr : Type where
  | parse
  | validation (e : ValidationErr)

/-- The include loop of `_from_file`: runs the recursive load on each include
path in order; an include result (ok or error) is discarded and the loop
continues — a failed include is only logged, never fatal — while a diverging
recursive load makes the whole loop diverge. -/
def include_pass (load : String → Option (Except LoadErr SinkTOML)) :
    List String → Option Unit
  | [] => Option.some ()
  | include_path :: rest =>
    match load include_path with
    | Option.none => Option.none
    | Option.some _ => include_pass load rest

/-- Fuel-indexed embedding of `SinkTOML::_from_file` / `from_file`
(`src/lib.rs` lines 85-125).  `fs` abstracts the collaborators outside the
core — `fs::read_to_string`, `toml::from_str` and the `Document` parse — as a
map from path to the parsed manifest, `Option.none` being a read or parse
failure.  The Rust function recurses into every path of `includes` with no
cycle detection or depth bound; the fuel bounds the recursion depth, so an
overall `Option.none` at every fuel means the recursion never returns.
Validation runs after the include pass, exactly as in the source. -/
def from_file_fuel (fs : String → Option SinkTOML) :
    Nat → String → Option (Except LoadErr SinkTOML)
  | 0, _ => Option.none
  | n + 1, path =>
    match fs path with
    | Option.none => Option.some (Except.error LoadErr.parse)
    | Option.some sink_toml =>
      match include_pass (from_file_fuel fs n) sink_toml.includes with
      | Option.none => Option.none
      | Option.some _ =>
        match sink_toml.validate with
        | Except.error e => Option.some (Except.error (LoadErr.validation e))
        | Except.ok _ => Option.some (Except.ok sink_toml)

/-- One include edge of the load graph: `q` is listed in the includes of the
manifest that path `p` reads and parses to under environment `fs`. -/
def IncludeEdge (fs : String → Option SinkTOML) (p q : String) : Prop :=
  ∃ st, fs p = Option.some st ∧ q ∈ st.includes

/-- A reachable include cycle: some manifest reachable from `p` along include
edges lies on a nonempty include cycle, i.e. the include graph reachable from
`p` is not acyclic. -/
def ReachesCycle (fs : String → Option SinkTOML) (p : String) : Prop :=
  ∃ c, Relation.ReflTransGen (IncludeEdge fs) p c ∧
    Relation.TransGen (IncludeEdge fs) c c

/- ================= Serde deserialization of dependency tables ============== -/

/-- Embedding of serde deserialization of `GitHubVersion` from a TOML value:
the lowercase unit variant names are matched first, then the
`#[serde(untagged)]` `Tag` variant catches any other string; a non-string
value fails. -/
def deserializeGitHubVersion : TomlValue → Option GitHubVersion
  | TomlValue.str s =>
    if s = "latest" then Option.some GitHubVersion.Latest
    else if s = "prerelease" then Option.some GitHubVersion.Prerelease
    else Option.some (GitHubVersion.Tag s)
  | _ => Option.none

/-- Embedding of serde deserialization of `GitHubDependency`: a table with a
required string `destination`, a required `version`, an optional boolean
`gitignore` (serde default `true`); `pathspec` is `#[serde(skip)]` and takes
its `Default`; unknown keys are ignored (no `deny_unknown_fields`). -/
def deserializeGitHubDependency : TomlValue → Option GitHubDependency
  | TomlValue.table es =>
    match lookupA es "destination", lookupA es "version" with
    | Option.some (TomlValue.str destination), Option.some raw_version =>
      match deserializeGitHubVersion raw_version with
      | Option.some version =>
        match lookupA es "gitignore" with
        | Option.none =>
          Option.some ⟨GitHubPathspec.empty, destination, version, true⟩
        | Option.some (TomlValue.bool b) =>
          Option.some ⟨GitHubPathspec.empty, destination, version, b⟩
        | Option.some _ => Option.none
      | Option.none => Option.none
    | _, _ => Option.none
  | _ => Option.none

/-- Embedding of serde's untagged deserialization of
`Dependency<GitHubDependency>`: the `Version(String)` variant is attempted
first and succeeds exactly on plain strings; any other value is attempted as
`Full`.  A bare string is therefore never read as a full record. -/
def deserializeDependency (v : TomlValue) : Option (Dependency GitHubDependency) :=
  match v with
  | TomlValue.str s => Option.some (Dependency.Version s)
  | _ => (deserializeGitHubDependency v).map Dependency.Full

/-- Deserializes every entry of a dependencies table; one failing entry fails
the whole table. -/
def deserializeDependencies :
    List (String × TomlValue) → Option (List (String × Dependency GitHubDependency))
  | [] => Option.some []
  | (k, v) :: rest =>
    match deserializeDependency v, deserializeDependencies rest with
    | Option.some d, Option.some ds => Option.some ((k, d) :: ds)
    | _, _ => Option.none

/-- Embedding of serde deserialization of `DependencyContainer`: an optional
string `includes` and a required `dependencies` table of entries; unknown keys
are ignored. -/
def deserializeDependencyContainer (v : TomlValue) :
    Option (DependencyContainer GitHubDependency) :=
  match v with
  | TomlValue.table es =>
    let includes_field : Option (Option String) :=
      match lookupA es "includes" with
      | Option.none => Option.some Option.none
      | Option.some (TomlValue.str s) => Option.some (Option.some s)
      | Option.some _ => Option.none
    match includes_field, lookupA es "dependencies" with
    | Option.some inc, Option.some (TomlValue.table ds) =>
      (deserializeDependencies ds).map (fun deps => ⟨inc, deps⟩)
    | _, _ => Option.none
  | _ => Option.none

/-- The `Grouped` attempt: every remaining key must itself deserialize as a
dependency container. -/
def deserializeGrouped :
    List (String × TomlValue) → Option (List (String × DependencyContainer GitHubDependency))
  | [] => Option.some []
  | (k, v) :: rest =>
    match deserializeDependencyContainer v, deserializeGrouped rest with
    | Option.some c, Option.some cs => Option.some ((k, c) :: cs)
    | _, _ => Option.none

/-- Embedding of serde's untagged deserialization of `DependencyType` from the
keys left over after `provider` and `default-group` were consumed (the
`#[serde(flatten)]` field of `PluginOptions`): `Singular` is attempted first,
then `Grouped`, and the `Invalid(Table)` catch-all accepts whatever remains,
so one malformed entry turns the whole container `Invalid`. -/
def deserializeDependencyType (es : List (String × TomlValue)) :
    DependencyType GitHubDependency :=
  match deserializeDependencyContainer (TomlValue.table es) with
  | Option.some c => DependencyType.Singular c
  | Option.none =>
    match deserializeGrouped es with
    | Option.some m => DependencyType.Grouped m
    | Option.none => DependencyType.Invalid es

/- ================= Characterization of successful adds ===================== -/

theorem commit_elim {st : SinkTOML} {gh : GitHubPluginOptions}
    {nd : DependencyType GitHubDependency} {pl k : String} {fg : Option String}
    {v : TomlItem} {st' : SinkTOML}
    (h2 : SinkTOML.extend_formatted
        { st with
          github := Option.some
            { gh with
              sink_options :=
                { gh.sink_options with dependencies := Option.some nd } } }
        pl fg k v = Option.some st') :
    setPath st.formatted (formattedPath pl fg k) v = Option.some st'.formatted ∧
    st' = { st with
            github := Option.some
              { gh with
                sink_options :=
                  { gh.sink_options with dependencies := Option.some nd } },
            formatted := st'.formatted } := by
  cases fg with
  | some g0 =>
    simp only [SinkTOML.extend_formatted] at h2
    cases hset : setPath st.formatted [pl, g0, "dependencies", k] v with
    | none => rw [hset] at h2; cases h2
    | some f =>
      rw [hset] at h2
      simp only [Option.map_some'] at h2
      injection h2 with hst
      subst hst
      exact ⟨hset, rfl⟩
  | none =>
    simp only [SinkTOML.extend_formatted] at h2
    cases hset : setPath st.formatted [pl, "dependencies", k] v with
    | none => rw [hset] at h2; cases h2
    | some f =>
      rw [hset] at h2
      simp only [Option.map_some'] at h2
      injection h2 with hst
      subst hst
      exact ⟨hset, rfl⟩

theorem add_dependency_ok_elim {st : SinkTOML} {pl : String} {g : Option String}
    {dep : Dependency GitHubDependency} {k : String} {v : TomlItem} {st' : SinkTOML}
    (h : st.add_dependency pl g dep k v = AddOutcome.ok st') :
    ∃ gh nd,
      st.github = Option.some gh ∧
      setPath st.formatted
        (formattedPath pl (g.or (gh.sink_options.default_group.or st.default_group)) k) v
        = Option.some st'.formatted ∧
      st' = { st with
              github := Option.some
                { gh with
                  sink_options :=
                    { gh.sink_options with dependencies := Option.some nd } },
              formatted := st'.formatted } ∧
      nd.entryAt (g.or (gh.sink_options.default_group.or st.default_group)) k
        = Option.some dep := by
  cases hgh : st.github with
  | none =>
    rw [SinkTOML.add_dependency, hgh] at h
    cases h
  | some gh =>
    rw [SinkTOML.add_dependency, hgh] at h
    simp only at h
    split at h
    · exact absurd h (by simp)
    · rename_i nd0 fg0 heq
      split at h
      · rename_i st2 hext
        injection h with hh
        subst hh
        obtain ⟨hset, hst⟩ := commit_elim hext
        split at heq
        · rename_i dt hdeps
          split at heq
          · rename_i grouped_containers
            split at heq
            · rename_i final_group hdg
              split at heq
              · rename_i existing_dependencies hlk
                split at heq
                · exact absurd heq (by simp)
                · rename_i hdup
                  injection heq with hpair
                  injection hpair with hnd hfg
                  subst hnd
                  subst hfg
                  refine ⟨gh, _, rfl, ?_, hst, ?_⟩
                  · rw [hdg]
                    exact hset
                  · rw [hdg]
                    simp only [DependencyType.entryAt, lookupA_insertA_self]
              · rename_i hlk
                injection heq with hpair
                injection hpair with hnd hfg
                subst hnd
                subst hfg
                refine ⟨gh, _, rfl, ?_, hst, ?_⟩
                · rw [hdg]
                  exact hset
                · rw [hdg]
                  simp only [DependencyType.entryAt, lookupA_insertA_self]
                  simp [lookupA]
            · exact absurd heq (by simp)
          · rename_i container
            split at heq
            · exact absurd heq (by simp)
            · rename_i hdup
              split at heq
              · exact absurd heq (by simp)
              · rename_i hdg
                injection heq with hpair
                injection hpair with hnd hfg
                subst hnd
                subst hfg
                refine ⟨gh, _, rfl, ?_, hst, ?_⟩
                · rw [hdg]
                  exact hset
                · rw [hdg]
                  simp only [DependencyType.entryAt]
                  exact lookupA_insertA_self _ _ _
          · exact absurd heq (by simp)
        · rename_i hdeps
          split at heq
          · rename_i g0 hdg
            injection heq with hpair
            injection hpair with hnd hfg
            subst hnd
            subst hfg
            refine ⟨gh, _, rfl, ?_, hst, ?_⟩
            · rw [hdg]
              exact hset
            · rw [hdg]
              simp [DependencyType.entryAt, lookupA]
          · rename_i hdg
            injection heq with hpair
            injection hpair with hnd hfg
            subst hnd
            subst hfg
            refine ⟨gh, _, rfl, ?_, hst, ?_⟩
            · rw [hdg]
              exact hset
            · rw [hdg]
              simp [DependencyType.entryAt, lookupA]
      · exact absurd h (by simp)

/- ================= Pathspec parsing lemmas ================================= -/

theorem noNL_of_not_mem {s : List Char} (h : '\n' ∉ s) : noNL s = true := by
  simp only [noNL, List.all_eq_true]
  intro c hc
  simp only [bne_iff_ne, ne_eq]
  intro hcn
  exact h (hcn ▸ hc)

theorem not_mem_of_noNL {s : List Char} (h : noNL s = true) : '\n' ∉ s := by
  simp only [noNL, List.all_eq_true] at h
  intro hm
  have hne := h _ hm
  simp at hne

theorem ne_nil_of_not_isEmpty {s : List Char} (h : (!s.isEmpty) = true) : s ≠ [] := by
  cases s with
  | nil => simp at h
  | cons c cs => exact List.cons_ne_nil c cs

theorem not_isEmpty_of_ne_nil {s : List Char} (h : s ≠ []) : (!s.isEmpty) = true := by
  cases s with
  | nil => exact absurd rfl h
  | cons c cs => simp [List.isEmpty]

theorem matchRepoPattern_some_elim {rest : List Char} {rp : List Char × List Char}
    (h : matchRepoPattern rest = Option.some rp) :
    rest = rp.1 ++ ':' :: rp.2 ∧ rp.1 ≠ [] ∧ rp.2 ≠ [] ∧
      noNL rp.1 = true ∧ noNL rp.2 = true := by
  obtain ⟨pr, hmem, hf⟩ := exists_of_findSome?_some h
  obtain ⟨a, b⟩ := pr
  cases b with
  | nil => cases hf
  | cons c pat =>
    simp only at hf
    by_cases hcond : (c == ':' && !a.isEmpty && !pat.isEmpty && noNL a && noNL pat) = true
    · rw [if_pos hcond] at hf
      injection hf with hrp
      subst hrp
      simp only [Bool.and_eq_true, beq_iff_eq] at hcond
      obtain ⟨⟨⟨⟨hc, ha⟩, hp⟩, hna⟩, hnp⟩ := hcond
      subst hc
      have habs := append_of_mem_splitsDesc hmem
      exact ⟨habs.symm, ne_nil_of_not_isEmpty ha, ne_nil_of_not_isEmpty hp, hna, hnp⟩
    · rw [if_neg hcond] at hf
      cases hf

theorem matchRepoPattern_isSome {r p : List Char} (hr : r ≠ []) (hp : p ≠ [])
    (hnr : noNL r = true) (hnp : noNL p = true) :
    (matchRepoPattern (r ++ ':' :: p)).isSome = true := by
  apply findSome?_isSome_of_mem (mem_splitsDesc_of_append r (':' :: p))
  show (if (':' == ':' && !r.isEmpty && !p.isEmpty && noNL r && noNL p) = true then
      Option.some (r, p) else Option.none) = Option.some (r, p)
  rw [if_pos]
  simp [not_isEmpty_of_ne_nil hr, not_isEmpty_of_ne_nil hp, hnr, hnp]

theorem try_from_some_elim {s : List Char} {ps : GitHubPathspec}
    (h : GitHubPathspec.try_from s = Option.some ps) :
    s = ps.owner ++ '/' :: (ps.repository ++ ':' :: ps.pattern) ∧
      ps.owner ≠ [] ∧ ps.repository ≠ [] ∧ ps.pattern ≠ [] ∧
      noNL ps.owner = true ∧ noNL ps.repository = true ∧ noNL ps.pattern = true := by
  obtain ⟨pr, hmem, hf⟩ := exists_of_findSome?_some h
  obtain ⟨a, b⟩ := pr
  cases b with
  | nil => cases hf
  | cons c rest =>
    simp only at hf
    by_cases hcond : (c == '/' && !a.isEmpty && noNL a) = true
    · rw [if_pos hcond] at hf
      simp only [Bool.and_eq_true, beq_iff_eq] at hcond
      obtain ⟨⟨hc, ha⟩, hna⟩ := hcond
      subst hc
      cases hmr : matchRepoPattern rest with
      | none => rw [hmr] at hf; cases hf
      | some rp =>
        rw [hmr] at hf
        injection hf with hps
        obtain ⟨hrest, hr, hp, hnr, hnp⟩ := matchRepoPattern_some_elim hmr
        have habs := append_of_mem_splitsDesc hmem
        subst hps
        refine ⟨?_, ne_nil_of_not_isEmpty ha, hr, hp, hna, hnr, hnp⟩
        rw [← habs, hrest]
    · rw [if_neg hcond] at hf
      cases hf

theorem try_from_isSome_iff (s : List Char) :
    (GitHubPathspec.try_from s).isSome = true ↔
      ∃ o r p, s = o ++ '/' :: (r ++ ':' :: p) ∧ o ≠ [] ∧ r ≠ [] ∧ p ≠ [] ∧
        noNL o = true ∧ noNL r = true ∧ noNL p = true := by
  constructor
  · intro h
    obtain ⟨ps, hps⟩ := Option.isSome_iff_exists.mp h
    obtain ⟨habs, ho, hr, hp, hno, hnr, hnp⟩ := try_from_some_elim hps
    exact ⟨ps.owner, ps.repository, ps.pattern, habs, ho, hr, hp, hno, hnr, hnp⟩
  · rintro ⟨o, r, p, habs, ho, hr, hp, hno, hnr, hnp⟩
    subst habs
    have hm := matchRepoPattern_isSome hr hp hnr hnp
    obtain ⟨rp, hrp⟩ := Option.isSome_iff_exists.mp hm
    apply findSome?_isSome_of_mem (mem_splitsDesc_of_append o ('/' :: (r ++ ':' :: p)))
    show (if ('/' == '/' && !o.isEmpty && noNL o) = true then
        match matchRepoPattern (r ++ ':' :: p) with
        | Option.some rq => Option.some (⟨o, rq.1, rq.2⟩ : GitHubPathspec)
        | Option.none => Option.none
      else Option.none) = Option.some (⟨o, rp.1, rp.2⟩ : GitHubPathspec)
    rw [if_pos (by simp [not_isEmpty_of_ne_nil ho, hno]), hrp]

theorem matchRepoPattern_unique {r p : List Char} (hr : r ≠ []) (hp : p ≠ [])
    (hr2 : ':' ∉ r) (hp2 : ':' ∉ p) (hnr : noNL r = true) (hnp : noNL p = true) :
    matchRepoPattern (r ++ ':' :: p) = Option.some (r, p) := by
  rw [matchRepoPattern]
  rw [findSome?_eq_of_unique (mem_splitsDesc_of_append r (':' :: p))]
  · show (if (':' == ':' && !r.isEmpty && !p.isEmpty && noNL r && noNL p) = true then
        Option.some (r, p) else Option.none) = Option.some (r, p)
    rw [if_pos]
    simp [not_isEmpty_of_ne_nil hr, not_isEmpty_of_ne_nil hp, hnr, hnp]
  · rintro ⟨a, b⟩ hmem hne
    have hab := append_of_mem_splitsDesc hmem
    cases b with
    | nil => rfl
    | cons c pat =>
      by_cases hc : c = ':'
      · subst hc
        obtain ⟨h1, h2⟩ := split_unique r a p pat hab.symm hr2 hp2
        exact absurd (by rw [← h1, ← h2]) hne
      · show (if (c == ':' && !a.isEmpty && !pat.isEmpty && noNL a && noNL pat) = true then
            Option.some (a, pat) else Option.none) = Option.none
        rw [if_neg]
        simp [hc]

theorem try_from_unique {o r p : List Char} (ho : o ≠ []) (hr : r ≠ []) (hp : p ≠ [])
    (ho1 : '/' ∉ o) (hr1 : '/' ∉ r) (hp1 : '/' ∉ p)
    (hr2 : ':' ∉ r) (hp2 : ':' ∉ p)
    (hno : noNL o = true) (hnr : noNL r = true) (hnp : noNL p = true) :
    GitHubPathspec.try_from (o ++ '/' :: (r ++ ':' :: p)) = Option.some ⟨o, r, p⟩ := by
  rw [GitHubPathspec.try_from]
  rw [findSome?_eq_of_unique (mem_splitsDesc_of_append o ('/' :: (r ++ ':' :: p)))]
  · show (if ('/' == '/' && !o.isEmpty && noNL o) = true then
        match matchRepoPattern (r ++ ':' :: p) with
        | Option.some rq => Option.some (⟨o, rq.1, rq.2⟩ : GitHubPathspec)
        | Option.none => Option.none
      else Option.none) = Option.some (⟨o, r, p⟩ : GitHubPathspec)
    rw [if_pos (by simp [not_isEmpty_of_ne_nil ho, hno]),
       matchRepoPattern_unique hr hp hr2 hp2 hnr hnp]
  · rintro ⟨a, b⟩ hmem hne
    have hab := append_of_mem_splitsDesc hmem
    cases b with
    | nil => rfl
    | cons c rest =>
      by_cases hc : c = '/'
      · subst hc
        have hnotr : '/' ∉ r ++ ':' :: p := by
          intro hm
          rcases List.mem_append.mp hm with hm1 | hm2
          · exact hr1 hm1
          · rcases List.mem_cons.mp hm2 with hh | hm3
            · cases hh
            · exact hp1 hm3
        obtain ⟨h1, h2⟩ := split_unique o a (r ++ ':' :: p) rest hab.symm ho1 hnotr
        exact absurd (by rw [← h1, ← h2]) hne
      · show (if (c == '/' && !a.isEmpty && noNL a) = true then
            match matchRepoPattern rest with
            | Option.some rq => Option.some (⟨a, rq.1, rq.2⟩ : GitHubPathspec)
            | Option.none => Option.none
          else Option.none) = Option.none
        rw [if_neg]
        simp [hc]

/- ================= Load divergence lemmas ================================== -/

theorem include_pass_none {load : String → Option (Except LoadErr SinkTOML)}
    {q : String} : ∀ {l : List String}, q ∈ l → load q = Option.none →
      include_pass load l = Option.none := by
  intro l
  induction l with
  | nil => intro h; cases h
  | cons a rest ih =>
    intro hmem hq
    rcases List.mem_cons.mp hmem with hqa | hmem'
    · subst hqa
      simp [include_pass, hq]
    · cases ha : load a with
      | none => simp [include_pass, ha]
      | some r => simp [include_pass, ha, ih hmem' hq]

theorem reachesCycle_step {fs : String → Option SinkTOML} {p : String}
    (h : ReachesCycle fs p) : ∃ q, IncludeEdge fs p q ∧ ReachesCycle fs q := by
  obtain ⟨c, hrt, htc⟩ := h
  rcases Relation.ReflTransGen.cases_head hrt with hpc | ⟨q, hpq, hqc⟩
  · subst hpc
    obtain ⟨q, hpq, hqc⟩ := (Relation.TransGen.head'_iff).mp htc
    exact ⟨q, hpq, ⟨p, hqc, htc⟩⟩
  · exact ⟨q, hpq, ⟨c, hqc, htc⟩⟩

theorem from_file_fuel_diverges {fs : String → Option SinkTOML} :
    ∀ (n : Nat) (p : String), ReachesCycle fs p →
      from_file_fuel fs n p = Option.none := by
  intro n
  induction n with
  | zero => intro p _; rfl
  | succ n ih =>
    intro p hp
    obtain ⟨q, ⟨st, hfsp, hqmem⟩, hq⟩ := reachesCycle_step hp
    rw [from_file_fuel, hfsp]
    simp only [include_pass_none hqmem (ih q hq)]

/- ================= Concrete manifests for examples ========================= -/

/-- A concrete dependency entry (the version-only shorthand). -/
def exampleDependency : Dependency GitHubDependency := Dependency.Version "v1.0.0"

/-- A concrete formatted value, the scalar string "v1.0.0". -/
def exampleValue : TomlItem := TomlItem.value (TomlValue.str "v1.0.0")

/-- A flat container already holding the key "foo". -/
def exampleContainerFoo : DependencyContainer GitHubDependency :=
  { includes := Option.none, dependencies := [("foo", Dependency.Version "v0.1.0")] }

/-- GitHub options whose container is `Singular` and already holds "foo". -/
def ghSingularFoo : GitHubPluginOptions :=
  { sink_options :=
      { provider := Option.some "gh"
        default_group := Option.none
        dependencies := Option.some (DependencyType.Singular exampleContainerFoo) }
    default_owner := Option.none
    default_repository := Option.none }

/-- A manifest whose GitHub container is `Singular` and already holds "foo". -/
def stSingularFoo : SinkTOML :=
  { includes := []
    default_group := Option.none
    python := Option.none
    rust := Option.none
    github := Option.some ghSingularFoo
    path := "sink.toml"
    formatted := TomlItem.table [] }

/-- GitHub options with no dependencies container yet. -/
def ghEmpty : GitHubPluginOptions :=
  { sink_options :=
      { provider := Option.some "gh"
        default_group := Option.none
        dependencies := Option.none }
    default_owner := Option.none
    default_repository := Option.none }

/-- A manifest with a GitHub section but no dependencies yet. -/
def stEmptyGitHub : SinkTOML :=
  { includes := []
    default_group := Option.none
    python := Option.none
    rust := Option.none
    github := Option.some ghEmpty
    path := "sink.toml"
    formatted := TomlItem.table [] }

/-- GitHub options with an empty `Singular` container. -/
def ghEmptySingular : GitHubPluginOptions :=
  { sink_options :=
      { provider := Option.some "gh"
        default_group := Option.none
        dependencies := Option.some (DependencyType.Singular
          { includes := Option.none, dependencies := [] }) }
    default_owner := Option.none
    default_repository := Option.none }

/-- A manifest whose GitHub container is an empty `Singular` container. -/
def stEmptySingular : SinkTOML :=
  { includes := []
    default_group := Option.none
    python := Option.none
    rust := Option.none
    github := Option.some ghEmptySingular
    path := "sink.toml"
    formatted := TomlItem.table [] }

/-- A manifest with no GitHub section at all. -/
def stNoGitHub : SinkTOML :=
  { includes := []
    default_group := Option.none
    python := Option.none
    rust := Option.none
    github := Option.none
    path := "sink.toml"
    formatted := TomlItem.table [] }

/-- Rust options whose dependencies container is in the `Invalid` shape. -/
def rustInvalidOptions : RustPluginOptions :=
  { sink_options :=
      { provider := Option.some "cargo"
        default_group := Option.none
        dependencies := Option.some (DependencyType.Invalid [("x", TomlValue.int 1)]) } }

/-- A manifest whose Rust container is `Invalid` while GitHub is absent. -/
def stRustInvalid : SinkTOML :=
  { includes := []
    default_group := Option.none
    python := Option.none
    rust := Option.some rustInvalidOptions
    github := Option.none
    path := "sink.toml"
    formatted := TomlItem.table [] }

/-- A manifest that lists its own path in `includes`. -/
def selfManifest : SinkTOML :=
  { includes := ["sink.toml"]
    default_group := Option.none
    python := Option.none
    rust := Option.none
    github := Option.none
    path := "sink.toml"
    formatted := TomlItem.table [] }

/-- A reading environment in which "sink.toml" parses to `selfManifest`. -/
def selfFS : String → Option SinkTOML :=
  fun p => if p = "sink.toml" then Option.some selfManifest else Option.none

/- ================= Claim C7 ================================================ -/

/-- C7: version-descriptor parsing is total: "latest" parses to `Latest`,
"prerelease" to `Prerelease`, and every other string to `Tag`; `to_string` is
the exact inverse for `Latest` and `Prerelease` and returns the wrapped string
unchanged for `Tag`, so parse-then-print is the identity on every string. -/
theorem c7_version_roundtrip :
    (∀ s : String, (GitHubVersion.from_str s).to_string = s) ∧
    GitHubVersion.Latest.to_string = "latest" ∧
    GitHubVersion.Prerelease.to_string = "prerelease" ∧
    (∀ t : String, (GitHubVersion.Tag t).to_string = t) ∧
    GitHubVersion.from_str "latest" = GitHubVersion.Latest ∧
    GitHubVersion.from_str "prerelease" = GitHubVersion.Prerelease ∧
    (∀ s : String, s ≠ "latest" → s ≠ "prerelease" →
      GitHubVersion.from_str s = GitHubVersion.Tag s) := by
  refine ⟨?_, rfl, rfl, fun t => rfl, by decide, by decide, ?_⟩
  · intro s
    by_cases h1 : s = "latest"
    · simp [GitHubVersion.from_str, h1, GitHubVersion.to_string]
    · by_cases h2 : s = "prerelease"
      · simp [GitHubVersion.from_str, h1, h2, GitHubVersion.to_string]
      · simp [GitHubVersion.from_str, h1, h2, GitHubVersion.to_string]
  · intro s h1 h2
    simp [GitHubVersion.from_str, h1, h2]

/-- Witness for C7 at the tag "v1.2.3". -/
theorem c7_witness :
    ("v1.2.3" : String) ≠ "latest" ∧ ("v1.2.3" : String) ≠ "prerelease" ∧
    GitHubVersion.from_str "v1.2.3" = GitHubVersion.Tag "v1.2.3" :=
  ⟨by decide, by decide,
    c7_version_roundtrip.2.2.2.2.2.2 "v1.2.3" (by decide) (by decide)⟩

/- ================= Claim C10 =============================================== -/

/-- C10: loading recursively loads every include with no cycle detection and
no depth bound: whenever the include graph reachable from the root has a
cycle, `from_file` exhausts every fuel bound, i.e. the recursion never
returns; a manifest listing its own path is such an input. -/
theorem c10_include_cycle (fs : String → Option SinkTOML) (p : String)
    (h : ReachesCycle fs p) : ∀ n, from_file_fuel fs n p = Option.none :=
  fun n => from_file_fuel_diverges n p h

/-- Witness for C10: the self-including manifest reaches a cycle and its load
diverges. -/
theorem c10_witness :
    ReachesCycle selfFS "sink.toml" ∧
    from_file_fuel selfFS 5 "sink.toml" = Option.none := by
  have hedge : IncludeEdge selfFS "sink.toml" "sink.toml" :=
    ⟨selfManifest, by simp [selfFS], by simp [selfManifest]⟩
  have hcyc : ReachesCycle selfFS "sink.toml" :=
    ⟨"sink.toml", Relation.ReflTransGen.refl, Relation.TransGen.single hedge⟩
  exact ⟨hcyc, c10_include_cycle selfFS "sink.toml" hcyc 5⟩

/- ================= Claim C4 ================================================ -/

/-- Counterexample to C4 as stated: "a/b/c:d" has two '/' segments before the
first ':' and "a/b:c:d" has two ':' characters, yet the pathspec regex accepts
both (the greedy `.+` groups absorb the extra separators). -/
theorem c4_counterexample :
    GitHubPathspec.try_from ("a/b/c:d".toList) =
      Option.some ⟨"a/b".toList, "c".toList, "d".toList⟩ ∧
    (("a/b/c:d".toList.takeWhile (fun c => c != ':')).count '/') = 2 ∧
    GitHubPathspec.try_from ("a/b:c:d".toList) =
      Option.some ⟨"a".toList, "b:c".toList, "d".toList⟩ ∧
    ("a/b:c:d".toList.count ':') = 2 := by
  refine ⟨?_, ?_, ?_, ?_⟩ <;> decide

/-- C4 (amended): pathspec parsing accepts exactly the strings that decompose
as owner ++ "/" ++ repo ++ ":" ++ pattern with all three segments nonempty and
newline-free; in particular every string with zero ':' and every string with
zero '/' is rejected — but a string with more than one ':' or more than one
'/' before the first ':' can still be accepted. -/
theorem c4_pathspec_reject :
    (∀ s : List Char, (GitHubPathspec.try_from s).isSome = true ↔
      ∃ o r p, s = o ++ '/' :: (r ++ ':' :: p) ∧ o ≠ [] ∧ r ≠ [] ∧ p ≠ [] ∧
        noNL o = true ∧ noNL r = true ∧ noNL p = true) ∧
    (∀ s : List Char, ':' ∉ s → GitHubPathspec.try_from s = Option.none) ∧
    (∀ s : List Char, '/' ∉ s → GitHubPathspec.try_from s = Option.none) := by
  refine ⟨try_from_isSome_iff, ?_, ?_⟩
  · intro s h
    cases ht : GitHubPathspec.try_from s with
    | none => rfl
    | some ps =>
      obtain ⟨habs, _, _, _, _, _, _⟩ := try_from_some_elim ht
      refine absurd ?_ h
      rw [habs]
      refine List.mem_append_right _ ?_
      refine List.mem_cons_of_mem _ ?_
      exact List.mem_append_right _ (List.mem_cons_self _ _)
  · intro s h
    cases ht : GitHubPathspec.try_from s with
    | none => rfl
    | some ps =>
      obtain ⟨habs, _, _, _, _, _, _⟩ := try_from_some_elim ht
      refine absurd ?_ h
      rw [habs]
      exact List.mem_append_right _ (List.mem_cons_self _ _)

/-- Witness for C4 (amended) on strings without the separators. -/
theorem c4_witness :
    (':' ∉ "abc".toList ∧ GitHubPathspec.try_from ("abc".toList) = Option.none) ∧
    ('/' ∉ "a:b".toList ∧ GitHubPathspec.try_from ("a:b".toList) = Option.none) :=
  ⟨⟨by decide, c4_pathspec_reject.2.1 ("abc".toList) (by decide)⟩,
   ⟨by decide, c4_pathspec_reject.2.2 ("a:b".toList) (by decide)⟩⟩

/- ================= Claim C6 ================================================ -/

/-- Counterexample to C6 as stated: the owner "a\n" is nonempty and contains
neither '/' nor ':', yet parsing "a\n/b:c" fails, because the regex
metacharacter `.` does not match a newline. -/
theorem c6_counterexample :
    (['a', '\n'] : List Char) ≠ [] ∧
    '/' ∉ (['a', '\n'] : List Char) ∧ ':' ∉ (['a', '\n'] : List Char) ∧
    GitHubPathspec.try_from
        (GitHubPathspec.into_string ⟨['a', '\n'], "b".toList, "c".toList⟩) =
      Option.none := by
  refine ⟨?_, ?_, ?_, ?_⟩ <;> decide

/-- C6 (amended): for all nonempty owner, repository and pattern containing no
'/', no ':' and no newline, parsing "owner/repository:pattern" succeeds with
exactly those three captures, and formatting the result returns exactly the
input string. -/
theorem c6_roundtrip (o r p : List Char)
    (ho : o ≠ []) (hr : r ≠ []) (hp : p ≠ [])
    (ho1 : '/' ∉ o) (ho2 : ':' ∉ o) (hon : '\n' ∉ o)
    (hr1 : '/' ∉ r) (hr2 : ':' ∉ r) (hrn : '\n' ∉ r)
    (hp1 : '/' ∉ p) (hp2 : ':' ∉ p) (hpn : '\n' ∉ p) :
    GitHubPathspec.try_from (o ++ '/' :: (r ++ ':' :: p)) = Option.some ⟨o, r, p⟩ ∧
    GitHubPathspec.into_string ⟨o, r, p⟩ = o ++ '/' :: (r ++ ':' :: p) := by
  constructor
  · exact try_from_unique ho hr hp ho1 hr1 hp1 hr2 hp2
      (noNL_of_not_mem hon) (noNL_of_not_mem hrn) (noNL_of_not_mem hpn)
  · simp [GitHubPathspec.into_string]

/-- Witness for C6 (amended) at owner/repo:pattern. -/
theorem c6_witness :
    ("owner".toList ≠ [] ∧ '/' ∉ "owner".toList ∧ ':' ∉ "owner".toList ∧
      '\n' ∉ "owner".toList) ∧
    GitHubPathspec.try_from ("owner".toList ++ '/' :: ("repo".toList ++ ':' :: "pattern".toList)) =
      Option.some ⟨"owner".toList, "repo".toList, "pattern".toList⟩ :=
  ⟨⟨by decide, by decide, by decide, by decide⟩,
   (c6_roundtrip "owner".toList "repo".toList "pattern".toList
     (by decide) (by decide) (by decide) (by decide) (by decide) (by decide)
     (by decide) (by decide) (by decide) (by decide) (by decide) (by decide)).1⟩

/- ================= Claim C5 ================================================ -/

/-- C5: a dependency entry whose raw value is a bare string deserializes to
the version-only shorthand wrapping that string and never to a full record
(for example "v1.0.0", whose version descriptor reads back as `Tag "v1.0.0"`);
a non-string raw value is attempted as `Full`, and on structural mismatch the
enclosing container falls back to the `Invalid` shape. -/
theorem c5_bare_string :
    (∀ s : String, deserializeDependency (TomlValue.str s) =
      Option.some (Dependency.Version s)) ∧
    GitHubVersion.from_str "v1.0.0" = GitHubVersion.Tag "v1.0.0" ∧
    (∀ v : TomlValue, (∀ s, v ≠ TomlValue.str s) →
      deserializeDependency v = (deserializeGitHubDependency v).map Dependency.Full) ∧
    deserializeDependencyType
        [("dependencies", TomlValue.table
          [("foo", TomlValue.table [("destination", TomlValue.str "d")])])] =
      DependencyType.Invalid
        [("dependencies", TomlValue.table
          [("foo", TomlValue.table [("destination", TomlValue.str "d")])])] := by
  refine ⟨fun s => rfl, by decide, ?_, rfl⟩
  intro v hv
  cases v with
  | str s => exact absurd rfl (hv s)
  | int n => rfl
  | bool b => rfl
  | array vs => rfl
  | table es => rfl

/-- Witness for C5 on a non-string raw value (the empty table). -/
theorem c5_witness :
    (∀ s, TomlValue.table [] ≠ TomlValue.str s) ∧
    deserializeDependency (TomlValue.table []) =
      (deserializeGitHubDependency (TomlValue.table [])).map Dependency.Full :=
  ⟨fun s h => TomlValue.noConfusion h,
   c5_bare_string.2.2.1 (TomlValue.table []) (fun s h => TomlValue.noConfusion h)⟩

/- ================= Claim C1 ================================================ -/

/-- Counterexample to C1 as stated: against a `Singular` container that
already holds "foo", a call whose resolved group is present fails with
`DuplicateKey`, not `GroupedIntoSingular` — the duplicate check runs first. -/
theorem c1_counterexample :
    stSingularFoo.add_dependency "GitHub" (Option.some "dev") exampleDependency
        "foo" exampleValue =
      AddOutcome.failed (AddError.DuplicateKey "foo") stSingularFoo ∧
    AddError.DuplicateKey "foo" ≠ AddError.GroupedIntoSingular :=
  ⟨rfl, fun h => AddError.noConfusion h⟩

/-- C1 (amended): against a `Singular` container, a call whose resolved group
is present (argument, provider default, or manifest default) always fails and
leaves the state — both the typed model and the formatted mirror — untouched;
the error is `DuplicateKey` when the key is already in the flat map and
`GroupedIntoSingular` otherwise. -/
theorem c1_singular_group_conflict (st : SinkTOML) (gh : GitHubPluginOptions)
    (c : DependencyContainer GitHubDependency) (pl : String) (g : Option String)
    (dep : Dependency GitHubDependency) (k : String) (v : TomlItem) (g0 : String)
    (hgh : st.github = Option.some gh)
    (hdeps : gh.sink_options.dependencies =
      Option.some (DependencyType.Singular c))
    (hdg : g.or (gh.sink_options.default_group.or st.default_group) =
      Option.some g0) :
    st.add_dependency pl g dep k v =
      AddOutcome.failed
        (if (lookupA c.dependencies k).isSome then AddError.DuplicateKey k
         else AddError.GroupedIntoSingular) st := by
  rw [SinkTOML.add_dependency, hgh]
  simp only [hdeps, hdg]
  cases hdup : (lookupA c.dependencies k).isSome <;> simp [hdup]

/-- Witness for C1 (amended): adding the fresh key "bar" with an explicit
group to the `Singular` container fails with `GroupedIntoSingular`. -/
theorem c1_witness :
    stSingularFoo.github = Option.some ghSingularFoo ∧
    ghSingularFoo.sink_options.dependencies =
      Option.some (DependencyType.Singular exampleContainerFoo) ∧
    (Option.some "dev").or
        (ghSingularFoo.sink_options.default_group.or stSingularFoo.default_group) =
      Option.some "dev" ∧
    stSingularFoo.add_dependency "GitHub" (Option.some "dev") exampleDependency
        "bar" exampleValue =
      AddOutcome.failed
        (if (lookupA exampleContainerFoo.dependencies "bar").isSome then
          AddError.DuplicateKey "bar"
         else AddError.GroupedIntoSingular) stSingularFoo :=
  ⟨rfl, rfl, rfl,
   c1_singular_group_conflict stSingularFoo ghSingularFoo exampleContainerFoo
     "GitHub" (Option.some "dev") exampleDependency "bar" exampleValue "dev"
     rfl rfl rfl⟩

/- ================= Claim C8 ================================================ -/

/-- C8: on a `Singular` container with no resolved group, adding a fresh key
inserts into the flat map and succeeds (provided the formatted-mirror write
does not hit a non-table node, which would panic), and any second call with
the same key on the resulting manifest fails with `DuplicateKey`. -/
theorem c8_singular_insert (st : SinkTOML) (gh : GitHubPluginOptions)
    (c : DependencyContainer GitHubDependency) (pl : String) (g : Option String)
    (dep : Dependency GitHubDependency) (k : String) (v : TomlItem) (f : TomlItem)
    (hgh : st.github = Option.some gh)
    (hdeps : gh.sink_options.dependencies =
      Option.some (DependencyType.Singular c))
    (hnew : lookupA c.dependencies k = Option.none)
    (hdg : g.or (gh.sink_options.default_group.or st.default_group) = Option.none)
    (hfmt : setPath st.formatted [pl, "dependencies", k] v = Option.some f) :
    st.add_dependency pl g dep k v =
      AddOutcome.ok
        { st with
          github := Option.some
            { gh with
              sink_options :=
                { gh.sink_options with
                  dependencies := Option.some (DependencyType.Singular
                    { c with dependencies := insertA c.dependencies k dep }) } },
          formatted := f } ∧
    (∀ st₂ : SinkTOML, st.add_dependency pl g dep k v = AddOutcome.ok st₂ →
      ∀ (pl₂ : String) (g₂ : Option String) (dep₂ : Dependency GitHubDependency)
        (v₂ : TomlItem),
        st₂.add_dependency pl₂ g₂ dep₂ k v₂ =
          AddOutcome.failed (AddError.DuplicateKey k) st₂) := by
  have hfirst : st.add_dependency pl g dep k v =
      AddOutcome.ok
        { st with
          github := Option.some
            { gh with
              sink_options :=
                { gh.sink_options with
                  dependencies := Option.some (DependencyType.Singular
                    { c with dependencies := insertA c.dependencies k dep }) } },
          formatted := f } := by
    rw [SinkTOML.add_dependency, hgh]
    simp only [hdeps, hdg, hnew, SinkTOML.extend_formatted]
    simp [hfmt]
  refine ⟨hfirst, ?_⟩
  intro st₂ heq pl₂ g₂ dep₂ v₂
  rw [hfirst] at heq
  injection heq with hst₂
  subst hst₂
  rw [SinkTOML.add_dependency]
  simp [lookupA_insertA_self]

/-- Witness for C8: adding "foo" to the empty `Singular` container succeeds
and the second identical call fails with `DuplicateKey`. -/
theorem c8_witness :
    stEmptySingular.github = Option.some ghEmptySingular ∧
    lookupA ([] : List (String × Dependency GitHubDependency)) "foo" = Option.none ∧
    setPath stEmptySingular.formatted ["GitHub", "dependencies", "foo"] exampleValue =
      Option.some (TomlItem.table
        [("GitHub", TomlItem.table
          [("dependencies", TomlItem.table [("foo", exampleValue)])])]) ∧
    stEmptySingular.add_dependency "GitHub" Option.none exampleDependency "foo"
        exampleValue =
      AddOutcome.ok
        { stEmptySingular with
          github := Option.some
            { ghEmptySingular with
              sink_options :=
                { ghEmptySingular.sink_options with
                  dependencies := Option.some (DependencyType.Singular
                    { includes := Option.none
                      dependencies := insertA [] "foo" exampleDependency }) } },
          formatted := TomlItem.table
            [("GitHub", TomlItem.table
              [("dependencies", TomlItem.table [("foo", exampleValue)])])] } :=
  ⟨rfl, rfl, rfl,
   (c8_singular_insert stEmptySingular ghEmptySingular
     { includes := Option.none, dependencies := [] } "GitHub" Option.none
     exampleDependency "foo" exampleValue _ rfl rfl rfl rfl rfl).1⟩

/- ================= Claim C2 ================================================ -/

/-- The manifest produced by adding "foo" under the plugin name "Python" to a
manifest whose only provider options are GitHub: the typed entry lands in the
GitHub options while the formatted write lands under the "Python" table. -/
def stPyResult : SinkTOML :=
  { stEmptyGitHub with
    github := Option.some
      { ghEmpty with
        sink_options :=
          { ghEmpty.sink_options with
            dependencies := Option.some (DependencyType.Singular
              { includes := Option.none
                dependencies := [("foo", exampleDependency)] }) } },
    formatted := TomlItem.table
      [("Python", TomlItem.table
        [("dependencies", TomlItem.table [("foo", exampleValue)])])] }

/-- Counterexample to C2 as stated: a successful call with plugin name
"Python" writes the typed entry into the GitHub provider's options but writes
the formatted value under the "Python" table — the "GitHub" path of the
formatted mirror stays empty, so the two key paths differ. -/
theorem c2_counterexample :
    stEmptyGitHub.add_dependency "Python" Option.none exampleDependency "foo"
        exampleValue = AddOutcome.ok stPyResult ∧
    getPath stPyResult.formatted ["GitHub", "dependencies", "foo"] = Option.none ∧
    getPath stPyResult.formatted ["Python", "dependencies", "foo"] =
      Option.some exampleValue ∧
    stPyResult.typedEntryAt Option.none "foo" = Option.some exampleDependency :=
  ⟨rfl, rfl, rfl, rfl⟩

/-- C2 (amended): every successful `add_dependency` writes `formatted_value`
into the formatted mirror at the key path `plugin_name` / resolved group (if
any) / "dependencies" / key — which coincides with the typed entry's path
exactly when `plugin_name` names the GitHub table — and the typed entry lands
at the resolved group and key of the GitHub options; the formatted value is
readable back at the written path, every formatted node on a diverging path is
unchanged, the root table keeps its entry order (a new plugin key is appended),
and all other manifest fields are untouched. -/
theorem c2_frame (st : SinkTOML) (pl : String) (g : Option String)
    (dep : Dependency GitHubDependency) (k : String) (v : TomlItem)
    (st' : SinkTOML) (gh : GitHubPluginOptions)
    (hgh : st.github = Option.some gh)
    (hok : st.add_dependency pl g dep k v = AddOutcome.ok st') :
    setPath st.formatted
        (formattedPath pl (g.or (gh.sink_options.default_group.or st.default_group)) k) v
      = Option.some st'.formatted ∧
    getPath st'.formatted
        (formattedPath pl (g.or (gh.sink_options.default_group.or st.default_group)) k)
      = Option.some v ∧
    (∀ q, divergesFrom
        (formattedPath pl (g.or (gh.sink_options.default_group.or st.default_group)) k) q →
      getPath st'.formatted q = getPath st.formatted q) ∧
    (∀ es, st.formatted = TomlItem.table es →
      ∃ u, st'.formatted = TomlItem.table (insertA es pl u)) ∧
    st'.typedEntryAt (g.or (gh.sink_options.default_group.or st.default_group)) k
      = Option.some dep ∧
    st'.python = st.python ∧ st'.rust = st.rust ∧ st'.includes = st.includes ∧
    st'.default_group = st.default_group ∧ st'.path = st.path := by
  obtain ⟨gh', nd, hgh', hset, hst, hentry⟩ := add_dependency_ok_elim hok
  rw [hgh] at hgh'
  injection hgh' with hgh2
  subst hgh2
  have hpl : ∃ rest, formattedPath pl
      (g.or (gh.sink_options.default_group.or st.default_group)) k = pl :: rest := by
    cases g.or (gh.sink_options.default_group.or st.default_group) with
    | some g0 => exact ⟨[g0, "dependencies", k], rfl⟩
    | none => exact ⟨["dependencies", k], rfl⟩
  refine ⟨hset, getPath_setPath_self _ _ _ _ hset,
    fun q hq => getPath_setPath_diverge _ q _ _ _ hset hq, ?_, ?_, ?_, ?_, ?_, ?_, ?_⟩
  · intro es hes
    obtain ⟨rest, hrest⟩ := hpl
    rw [hrest, hes] at hset
    exact setPath_root_table es pl rest v st'.formatted hset
  · rw [hst]
    simp only [SinkTOML.typedEntryAt]
    exact hentry
  · rw [hst]
  · rw [hst]
  · rw [hst]
  · rw [hst]
  · rw [hst]

/-- The manifest produced by the corresponding successful call with plugin
name "GitHub": here the formatted path and the typed path coincide. -/
def stGhResult : SinkTOML :=
  { stEmptyGitHub with
    github := Option.some
      { ghEmpty with
        sink_options :=
          { ghEmpty.sink_options with
            dependencies := Option.some (DependencyType.Singular
              { includes := Option.none
                dependencies := [("foo", exampleDependency)] }) } },
    formatted := TomlItem.table
      [("GitHub", TomlItem.table
        [("dependencies", TomlItem.table [("foo", exampleValue)])])] }

/-- Witness for C2 (amended) on the concrete successful add under "GitHub". -/
theorem c2_witness :
    stEmptyGitHub.github = Option.some ghEmpty ∧
    stEmptyGitHub.add_dependency "GitHub" Option.none exampleDependency "foo"
        exampleValue = AddOutcome.ok stGhResult ∧
    setPath stEmptyGitHub.formatted
        (formattedPath "GitHub"
          ((Option.none : Option String).or
            (ghEmpty.sink_options.default_group.or stEmptyGitHub.default_group)) "foo")
        exampleValue
      = Option.some stGhResult.formatted :=
  ⟨rfl, rfl,
   (c2_frame stEmptyGitHub "GitHub" Option.none exampleDependency "foo"
     exampleValue stGhResult ghEmpty rfl rfl).1⟩

/- ================= Claim C9 ================================================ -/

/-- C9: `add_dependency` requires the GitHub section: when it is absent the
call panics (`unwrap` on `None`) instead of returning an error; moreover on
every success the typed insertion targets the GitHub provider's options
regardless of `plugin_name` (all other manifest fields are untouched), while
the formatted edit targets the table named by `plugin_name`. -/
theorem c9_requires_github :
    (∀ (st : SinkTOML) (pl : String) (g : Option String)
      (dep : Dependency GitHubDependency) (k : String) (v : TomlItem),
      st.github = Option.none →
      st.add_dependency pl g dep k v = AddOutcome.panicked) ∧
    (∀ (st : SinkTOML) (pl : String) (g : Option String)
      (dep : Dependency GitHubDependency) (k : String) (v : TomlItem)
      (st' : SinkTOML) (gh : GitHubPluginOptions),
      st.github = Option.some gh →
      st.add_dependency pl g dep k v = AddOutcome.ok st' →
      st'.python = st.python ∧ st'.rust = st.rust ∧
      (∃ nd, st'.github = Option.some
        { gh with
          sink_options :=
            { gh.sink_options with dependencies := Option.some nd } }) ∧
      setPath st.formatted
          (formattedPath pl (g.or (gh.sink_options.default_group.or st.default_group)) k) v
        = Option.some st'.formatted) := by
  constructor
  · intro st pl g dep k v h
    rw [SinkTOML.add_dependency, h]
  · intro st pl g dep k v st' gh hgh hok
    obtain ⟨gh', nd, hgh', hset, hst, hentry⟩ := add_dependency_ok_elim hok
    rw [hgh] at hgh'
    injection hgh' with hgh2
    subst hgh2
    refine ⟨?_, ?_, ⟨nd, ?_⟩, hset⟩
    · rw [hst]
    · rw [hst]
    · rw [hst]

/-- Witness for C9: on a manifest without a GitHub section the call panics. -/
theorem c9_witness :
    stNoGitHub.github = Option.none ∧
    stNoGitHub.add_dependency "GitHub" Option.none exampleDependency "foo"
        exampleValue = AddOutcome.panicked :=
  ⟨rfl,
   c9_requires_github.1 stNoGitHub "GitHub" Option.none exampleDependency "foo"
     exampleValue rfl⟩

/- ================= Claim C3 ================================================ -/

/-- Counterexample to C3 as stated: a manifest whose Rust container is in the
`Invalid` shape passes validation — `_validate` never traverses providers
other than GitHub, so no `MalformedEntries`-style error naming the offender is
produced. -/
theorem c3_counterexample :
    stRustInvalid.rust = Option.some rustInvalidOptions ∧
    rustInvalidOptions.sink_options.dependencies =
      Option.some (DependencyType.Invalid [("x", TomlValue.int 1)]) ∧
    stRustInvalid.validate = Except.ok () :=
  ⟨rfl, rfl, rfl⟩

/-- C3 (amended): validation inspects only the GitHub provider: it fails, with
an error carrying the raw invalid table and naming no key, exactly when the
GitHub options are present and their dependencies container is in the
`Invalid` shape (entries themselves are only ever `Version` or `Full`, so a
malformed entry surfaces as a whole-container `Invalid`); `load` runs this
validation after the include pass, so loading such a manifest fails with the
wrapped validation error. -/
theorem c3_validate_only_github :
    (∀ st : SinkTOML,
      (∃ e, st.validate = Except.error e) ↔
      (∃ gh t, st.github = Option.some gh ∧
        gh.sink_options.dependencies = Option.some (DependencyType.Invalid t))) ∧
    (∀ st : SinkTOML, ∀ gh t, st.github = Option.some gh →
      gh.sink_options.dependencies = Option.some (DependencyType.Invalid t) →
      st.validate = Except.error (ValidationErr.InvalidGitHubDependencies t)) ∧
    (∀ (fs : String → Option SinkTOML) (p : String) (st : SinkTOML) (n : Nat)
      (e : ValidationErr),
      fs p = Option.some st → st.includes = [] → st.validate = Except.error e →
      from_file_fuel fs (n + 1) p =
        Option.some (Except.error (LoadErr.validation e))) := by
  refine ⟨?_, ?_, ?_⟩
  · intro st
    constructor
    · rintro ⟨e, he⟩
      rw [SinkTOML.validate] at he
      cases hgh : st.github with
      | none => simp only [hgh] at he; cases he
      | some gh =>
        simp only [hgh] at he
        cases hdeps : gh.sink_options.dependencies with
        | none => simp only [hdeps] at he; cases he
        | some dt =>
          simp only [hdeps] at he
          cases dt with
          | Singular c => simp at he
          | Grouped m => simp at he
          | Invalid t => exact ⟨gh, t, rfl, hdeps⟩
    · rintro ⟨gh, t, hgh, hdeps⟩
      refine ⟨ValidationErr.InvalidGitHubDependencies t, ?_⟩
      rw [SinkTOML.validate]
      simp only [hgh, hdeps]
  · intro st gh t hgh hdeps
    rw [SinkTOML.validate]
    simp only [hgh, hdeps]
  · intro fs p st n e hfs hinc hval
    rw [from_file_fuel, hfs]
    simp only [hinc, include_pass, hval]

/-- A manifest whose GitHub dependencies container is `Invalid`. -/
def ghInvalid : GitHubPluginOptions :=
  { sink_options :=
      { provider := Option.some "gh"
        default_group := Option.none
        dependencies := Option.some (DependencyType.Invalid [("y", TomlValue.bool true)]) }
    default_owner := Option.none
    default_repository := Option.none }

/-- A manifest whose GitHub container is `Invalid`, with no includes. -/
def stGitHubInvalid : SinkTOML :=
  { includes := []
    default_group := Option.none
    python := Option.none
    rust := Option.none
    github := Option.some ghInvalid
    path := "sink.toml"
    formatted := TomlItem.table [] }

/-- Witness for C3 (amended): loading a manifest whose GitHub dependencies
container is `Invalid` fails with the wrapped validation error. -/
theorem c3_witness :
    ((fun q => if q = "sink.toml" then Option.some stGitHubInvalid else Option.none)
        "sink.toml" = Option.some stGitHubInvalid) ∧
    stGitHubInvalid.includes = [] ∧
    stGitHubInvalid.validate =
      Except.error (ValidationErr.InvalidGitHubDependencies [("y", TomlValue.bool true)]) ∧
    from_file_fuel
        (fun q => if q = "sink.toml" then Option.some stGitHubInvalid else Option.none)
        1 "sink.toml" =
      Option.some (Except.error (LoadErr.validation
        (ValidationErr.InvalidGitHubDependencies [("y", TomlValue.bool true)]))) := by
  refine ⟨by simp, rfl, rfl, ?_⟩
  exact c3_validate_only_github.2.2
    (fun q => if q = "sink.toml" then Option.some stGitHubInvalid else Option.none)
    "sink.toml" stGitHubInvalid 0 (ValidationErr.InvalidGitHubDependencies
      [("y", TomlValue.bool true)]) (by simp) rfl rfl
